import Mathlib

/-!
Verification development for the `codewandler/llm` repository: a streaming
LLM provider runtime written in Go.  The Go source is embedded shallowly:

* JSON documents are modelled by the inductive `Json` tree (numbers keep
  their lexeme, since no property here compares numeric values);
* `map[string]any` values are modelled as association lists of
  `String × Json`; a `nil` Go map is `Option.none`;
* fallible Go functions returning `error` are modelled with `Option String`
  (the error message) or `Except`;
* each provider adapter's `parseStream` goroutine is modelled as a pure
  function from the list of raw SSE lines (pre-classified the way the Go
  code classifies them: non-data lines, the `[DONE]` marker, lines whose
  JSON chunk decode fails, and decoded chunks) to the list of events it
  sends on the channel before closing it.  Context cancellation is modelled
  by the iteration index from which `ctx.Done()` is closed.
-/

namespace LlmRepo

/-- A JSON document.  Numbers keep their source lexeme: Go decodes them to
`float64`, but no claim below compares numeric values, so the lexeme is a
faithful injective stand-in. -/
inductive Json where
  | null
  | bool (b : Bool)
  | num (lexeme : String)
  | str (s : String)
  | arr (items : List Json)
  | obj (fields : List (String × Json))

/-- Field lookup in a JSON object, last occurrence wins — Go's
`encoding/json` assigns object keys in order, so a duplicate key
overwrites the earlier value. -/
def lookupField (fields : List (String × Json)) (key : String) : Option Json :=
  fields.foldl (fun acc kv => if kv.1 = key then some kv.2 else acc) none

/-- Replace the value under `key`, or append the pair — models writing to a
Go map while remembering insertion order. -/
def setKey {α : Type} (l : List (String × α)) (key : String) (v : α) : List (String × α) :=
  match l with
  | [] => [(key, v)]
  | kv :: rest => if kv.1 = key then (key, v) :: rest else kv :: setKey rest key v

/-- First-match assoc lookup (Go map read). The tables built with `setKey`
never hold duplicate keys, so first-match agrees with the map. -/
def getKey {α : Type} (l : List (String × α)) (key : String) : Option α :=
  match l with
  | [] => none
  | kv :: rest => if kv.1 = key then some kv.2 else getKey rest key

end LlmRepo

namespace LlmRepo.JsonText

/-!  A small JSON text parser, used to model `json.Unmarshal` applied to an
accumulated tool-argument buffer (`emitToolCalls` in both adapters).
`json.Unmarshal` first validates the whole input and only then decodes, so
a syntactically malformed buffer leaves the target `map[string]any` nil;
a valid document whose top level is not an object also leaves it nil
(for `null` silently, otherwise with an ignored type error). -/

def isWs (c : Char) : Bool :=
  c = ' ' ∨ c = '\t' ∨ c = '\n' ∨ c = '\r'

def skipWs : List Char → List Char
  | [] => []
  | c :: rest => if isWs c then skipWs rest else c :: rest

def isDigit (c : Char) : Bool := '0' ≤ c ∧ c ≤ '9'

def hexVal (c : Char) : Option Nat :=
  if '0' ≤ c ∧ c ≤ '9' then some (c.toNat - '0'.toNat)
  else if 'a' ≤ c ∧ c ≤ 'f' then some (c.toNat - 'a'.toNat + 10)
  else if 'A' ≤ c ∧ c ≤ 'F' then some (c.toNat - 'A'.toNat + 10)
  else none

/-- Parse the body of a JSON string after the opening quote; returns the
decoded characters and the input after the closing quote. -/
def parseStringBody : List Char → Option (List Char × List Char)
  | [] => none
  | '"' :: rest => some ([], rest)
  | '\\' :: e :: rest =>
      match e with
      | '"' => (parseStringBody rest).map (fun p => ('"' :: p.1, p.2))
      | '\\' => (parseStringBody rest).map (fun p => ('\\' :: p.1, p.2))
      | '/' => (parseStringBody rest).map (fun p => ('/' :: p.1, p.2))
      | 'b' => (parseStringBody rest).map (fun p => ('\x08' :: p.1, p.2))
      | 'f' => (parseStringBody rest).map (fun p => ('\x0c' :: p.1, p.2))
      | 'n' => (parseStringBody rest).map (fun p => ('\n' :: p.1, p.2))
      | 'r' => (parseStringBody rest).map (fun p => ('\r' :: p.1, p.2))
      | 't' => (parseStringBody rest).map (fun p => ('\t' :: p.1, p.2))
      | 'u' =>
          match rest with
          | h1 :: h2 :: h3 :: h4 :: rest' =>
              match hexVal h1, hexVal h2, hexVal h3, hexVal h4 with
              | some a, some b, some c, some d =>
                  let n := ((a * 16 + b) * 16 + c) * 16 + d
                  (parseStringBody rest').map (fun p => (Char.ofNat n :: p.1, p.2))
              | _, _, _, _ => none
          | _ => none
      | _ => none
  | c :: rest =>
      if c = '"' ∨ c = '\\' then none
      else (parseStringBody rest).map (fun p => (c :: p.1, p.2))

def span (p : Char → Bool) : List Char → List Char × List Char
  | [] => ([], [])
  | c :: rest =>
      if p c then
        let (a, b) := span p rest
        (c :: a, b)
      else ([], c :: rest)

/-- Parse a JSON number lexeme (sign, integer part, optional fraction and
exponent). -/
def parseNumber (cs : List Char) : Option (List Char × List Char) :=
  let (sign, cs₁) :=
    match cs with
    | '-' :: rest => (['-'], rest)
    | _ => ([], cs)
  let (intPart, cs₂) := span isDigit cs₁
  if intPart.isEmpty then none
  else
    let (fracPart, cs₃) :=
      match cs₂ with
      | '.' :: rest =>
          let (ds, rest') := span isDigit rest
          if ds.isEmpty then ([], cs₂) else ('.' :: ds, rest')
      | _ => ([], cs₂)
    let (expPart, cs₄) :=
      match cs₃ with
      | e :: rest =>
          if e = 'e' ∨ e = 'E' then
            let (sgn, rest₁) :=
              match rest with
              | '+' :: r => (['+'], r)
              | '-' :: r => (['-'], r)
              | _ => ([], rest)
            let (ds, rest₂) := span isDigit rest₁
            if ds.isEmpty then ([], cs₃) else (e :: (sgn ++ ds), rest₂)
          else ([], cs₃)
      | _ => ([], cs₃)
    some (sign ++ intPart ++ fracPart ++ expPart, cs₄)

mutual

/-- Parse one JSON value (no leading whitespace skipped for the fuel-free
positions; callers skip). `fuel` bounds recursion depth. -/
def parseValue (fuel : Nat) (cs : List Char) : Option (Json × List Char) :=
  match fuel with
  | 0 => none
  | fuel + 1 =>
      match skipWs cs with
      | 'n' :: 'u' :: 'l' :: 'l' :: rest => some (.null, rest)
      | 't' :: 'r' :: 'u' :: 'e' :: rest => some (.bool true, rest)
      | 'f' :: 'a' :: 'l' :: 's' :: 'e' :: rest => some (.bool false, rest)
      | '"' :: rest =>
          (parseStringBody rest).map (fun p => (.str (String.mk p.1), p.2))
      | '[' :: rest =>
          match skipWs rest with
          | ']' :: rest' => some (.arr [], rest')
          | other => (parseElems fuel other).map (fun p => (.arr p.1, p.2))
      | '{' :: rest =>
          match skipWs rest with
          | '}' :: rest' => some (.obj [], rest')
          | other => (parseMembers fuel other).map (fun p => (.obj p.1, p.2))
      | other =>
          (parseNumber other).map (fun p => (.num (String.mk p.1), p.2))

/-- Parse array elements up to and including the closing `]`. -/
def parseElems (fuel : Nat) (cs : List Char) : Option (List Json × List Char) :=
  match fuel with
  | 0 => none
  | fuel + 1 =>
      match parseValue fuel cs with
      | none => none
      | some (v, rest) =>
          match skipWs rest with
          | ',' :: rest' =>
              (parseElems fuel rest').map (fun p => (v :: p.1, p.2))
          | ']' :: rest' => some ([v], rest')
          | _ => none

/-- Parse object members up to and including the closing `}`. -/
def parseMembers (fuel : Nat) (cs : List Char) : Option (List (String × Json) × List Char) :=
  match fuel with
  | 0 => none
  | fuel + 1 =>
      match skipWs cs with
      | '"' :: rest =>
          match parseStringBody rest with
          | none => none
          | some (key, rest₁) =>
              match skipWs rest₁ with
              | ':' :: rest₂ =>
                  match parseValue fuel rest₂ with
                  | none => none
                  | some (v, rest₃) =>
                      match skipWs rest₃ with
                      | ',' :: rest₄ =>
                          (parseMembers fuel rest₄).map
                            (fun p => ((String.mk key, v) :: p.1, p.2))
                      | '}' :: rest₄ => some ([(String.mk key, v)], rest₄)
                      | _ => none
              | _ => none
      | _ => none

end

/-- Parse a complete JSON document: one value followed only by whitespace. -/
def parseDocument (s : String) : Option Json :=
  match parseValue (s.length + 1) s.data with
  | none => none
  | some (v, rest) => if (skipWs rest).isEmpty then some v else none

/-- Model of `json.Unmarshal(buf, &m)` for `m : map[string]any` with the
error ignored: the map ends up non-nil exactly when the buffer is one
valid JSON document whose top level is an object. -/
def unmarshalMap (s : String) : Option (List (String × Json)) :=
  match parseDocument s with
  | some (.obj kvs) => some kvs
  | _ => none

end LlmRepo.JsonText

namespace LlmRepo

/-! ## Message model (`src/api.go`) -/

/-- `ToolCall` (`src/api.go`): `Arguments map[string]any`; `none` models a
nil Go map. -/
structure ToolCall where
  id : String
  name : String
  arguments : Option (List (String × Json))

/-- The closed set of message variants (`SystemMsg`, `UserMsg`,
`AssistantMsg`, `ToolCallResult` in `src/api.go`; external implementations
are prevented by the unexported `messageMarker`). -/
inductive Msg where
  | system (content : String)
  | user (content : String)
  | assistant (content : String) (toolCalls : List ToolCall)
  | toolResult (toolCallId : String) (output : String) (isError : Bool)

/-- `ToolCall.Validate` (`src/api.go`). -/
def ToolCall.Validate (tc : ToolCall) : Option String :=
  if tc.id = "" then some "tool call: id is required"
  else if tc.name = "" then some "tool call: name is required"
  else none

/-- First validation error among an assistant message's tool calls,
prefixed with its index (`AssistantMsg.Validate`'s loop). -/
def validateToolCalls (i : Nat) : List ToolCall → Option String
  | [] => none
  | tc :: rest =>
      match tc.Validate with
      | some e => some ("assistant message: tool_calls[" ++ toString i ++ "]: " ++ e)
      | none => validateToolCalls (i + 1) rest

/-- `Message.Validate` per variant (`src/api.go`). -/
def Msg.Validate : Msg → Option String
  | .system c => if c = "" then some "system message: content is required" else none
  | .user c => if c = "" then some "user message: content is required" else none
  | .assistant c tcs =>
      if c = "" ∧ tcs.isEmpty then
        some "assistant message: content or tool_calls is required"
      else validateToolCalls 0 tcs
  | .toolResult id out _ =>
      if id = "" then some "tool call result: tool_call_id is required"
      else if out = "" then some "tool call result: output is required"
      else none

/-! ### Wire encoding (the `MarshalJSON` methods, at the JSON-tree level) -/

/-- `ToolCall.MarshalJSON`: `{"id", "name", "arguments"}`; a nil arguments
map marshals as JSON `null`.  (Go prints map keys sorted; object key order
is semantically irrelevant, so the association list is emitted as stored.) -/
def encodeToolCall (tc : ToolCall) : Json :=
  .obj [("id", .str tc.id), ("name", .str tc.name),
        ("arguments", match tc.arguments with
                      | none => .null
                      | some kvs => .obj kvs)]

/-- The `MarshalJSON` methods of the four variants: `Assistant` omits
`content` and `tool_calls` when empty (`omitempty`); `ToolCallResult`
writes `Output` under the `content` key and omits `is_error` when false. -/
def encodeMsg : Msg → Json
  | .system c => .obj [("role", .str "system"), ("content", .str c)]
  | .user c => .obj [("role", .str "user"), ("content", .str c)]
  | .assistant c tcs =>
      .obj ([("role", .str "assistant")]
        ++ (if c = "" then [] else [("content", .str c)])
        ++ (if tcs.isEmpty then [] else [("tool_calls", .arr (tcs.map encodeToolCall))]))
  | .toolResult id out isErr =>
      .obj ([("role", .str "tool"), ("tool_call_id", .str id), ("content", .str out)]
        ++ (if isErr then [("is_error", .bool true)] else []))

def encodeMessages (ms : List Msg) : Json :=
  .arr (ms.map encodeMsg)

/-! ### Wire decoding (`Messages.UnmarshalJSON`, `src/api.go:202-267`) -/

/-- `json.Unmarshal` of an object field into a `string` struct field:
a missing key or JSON `null` leaves the zero value `""`; a non-string
value is a type error. -/
def getStringField (fields : List (String × Json)) (key : String) (i : Nat) :
    Except String String :=
  match lookupField fields key with
  | none => .ok ""
  | some .null => .ok ""
  | some (.str s) => .ok s
  | some _ => .error ("message[" ++ toString i ++ "]: cannot unmarshal " ++ key)

/-- Same for a `bool` struct field. -/
def getBoolField (fields : List (String × Json)) (key : String) (i : Nat) :
    Except String Bool :=
  match lookupField fields key with
  | none => .ok false
  | some .null => .ok false
  | some (.bool b) => .ok b
  | some _ => .error ("message[" ++ toString i ++ "]: cannot unmarshal " ++ key)

/-- `ToolCall.UnmarshalJSON` (`src/api.go:181-195`) applied to one array
element: reads `id`, `name` and `arguments`; unmarshalling JSON `null`
into the wire struct is a no-op, yielding the zero `ToolCall`. -/
def decodeToolCall (i : Nat) : Json → Except String ToolCall
  | .null => .ok ⟨"", "", none⟩
  | .obj fs => do
      let id ← getStringField fs "id" i
      let name ← getStringField fs "name" i
      let args ←
        match lookupField fs "arguments" with
        | none => pure (Option.none (α := List (String × Json)))
        | some .null => pure none
        | some (.obj kvs) => pure (some kvs)
        | some _ =>
            Except.error ("message[" ++ toString i ++ "]: cannot unmarshal arguments")
      pure ⟨id, name, args⟩
  | _ => .error ("message[" ++ toString i ++ "]: cannot unmarshal tool call")

def decodeToolCallList (i : Nat) : List Json → Except String (List ToolCall)
  | [] => .ok []
  | j :: rest => do
      let tc ← decodeToolCall i j
      let tcs ← decodeToolCallList i rest
      pure (tc :: tcs)

/-- `json.Unmarshal` of the `tool_calls` field into `[]ToolCall`: missing
or `null` leaves nil; an array decodes element-wise. -/
def getToolCallsField (fields : List (String × Json)) (i : Nat) :
    Except String (List ToolCall) :=
  match lookupField fields "tool_calls" with
  | none => .ok []
  | some .null => .ok []
  | some (.arr xs) => decodeToolCallList i xs
  | some _ => .error ("message[" ++ toString i ++ "]: cannot unmarshal tool_calls")

/-- The role string the peek step extracts from one raw record: a missing
`role` key or JSON `null` leaves the zero value `""`. -/
def peekRole (fields : List (String × Json)) : Except String String :=
  match lookupField fields "role" with
  | none => .ok ""
  | some .null => .ok ""
  | some (.str s) => .ok s
  | some _ => .error "cannot unmarshal role"

/-- Decode one wire record according to its peeked role
(the `switch peek.Role` in `Messages.UnmarshalJSON`). -/
def decodeRecord (i : Nat) : Json → Except String Msg
  | .null =>
      -- unmarshalling `null` into the peek struct is a no-op, so the role
      -- stays "" and the switch falls to the unknown-role default
      .error ("message[" ++ toString i ++ "]: unknown role \"" ++ "" ++ "\"")
  | .obj fs =>
      match peekRole fs with
      | .error e => .error ("message[" ++ toString i ++ "]: " ++ e)
      | .ok role =>
          if role = "system" then do
            let c ← getStringField fs "content" i
            pure (.system c)
          else if role = "user" then do
            let c ← getStringField fs "content" i
            pure (.user c)
          else if role = "assistant" then do
            let c ← getStringField fs "content" i
            let tcs ← getToolCallsField fs i
            pure (.assistant c tcs)
          else if role = "tool" then do
            let id ← getStringField fs "tool_call_id" i
            let c ← getStringField fs "content" i
            let isErr ← getBoolField fs "is_error" i
            pure (.toolResult id c isErr)
          else
            .error ("message[" ++ toString i ++ "]: unknown role \"" ++ role ++ "\"")
  | _ => .error ("message[" ++ toString i ++ "]: cannot unmarshal message")

/-- The record loop of `Messages.UnmarshalJSON`; the first failing record
aborts the whole decode with its error. -/
def decodeRecords (i : Nat) : List Json → Except String (List Msg)
  | [] => .ok []
  | j :: rest => do
      let m ← decodeRecord i j
      let ms ← decodeRecords (i + 1) rest
      pure (m :: ms)

/-- `Messages.UnmarshalJSON`: the payload must be a JSON array; on any
record error the whole decode fails and no partial message list is
produced. -/
def decodeMessages : Json → Except String (List Msg)
  | .arr items => decodeRecords 0 items
  | _ => .error "cannot unmarshal messages"

end LlmRepo

namespace LlmRepo

/-! ## Tool contract and stream options (`src/tool.go`, `src/provider.go`) -/

/-- `ToolDefinition` (`src/tool.go:14-18`): `Parameters map[string]any`;
`none` models a nil map (absent parameters). -/
structure ToolDefinition where
  name : String
  description : String
  parameters : Option (List (String × Json))

/-- Modelled from the spec: `ToolDefinition.Validate` is exercised by the
repository's tests but its body is not among the source files, so it is
taken from the spec's words — "`ToolDefinition.validate` fails iff
`name == \x22\x22`, or `parameters` is present with a `type` other than
`\x22object\x22`" (the `type` check compares the stored value with the
string `"object"`, so a present non-string `type` also fails). -/
def ToolDefinition.Validate (td : ToolDefinition) : Option String :=
  if td.name = "" then some "tool definition: name is required"
  else
    match td.parameters with
    | none => none
    | some ps =>
        match lookupField ps "type" with
        | none => none
        | some (.str t) =>
            if t = "object" then none
            else some ("tool definition \"" ++ td.name ++ "\": parameters type must be \"object\"")
        | some _ =>
            some ("tool definition \"" ++ td.name ++ "\": parameters type must be \"object\"")

/-- The closed `ToolChoice` variant set; Go's nil interface is `Option.none`
at the use site. -/
inductive ToolChoice where
  | auto
  | required
  | noTool
  | tool (name : String)

/-- `StreamOptions` (`src/provider.go:60-66`). -/
structure StreamOptions where
  model : String
  messages : List Msg
  tools : List ToolDefinition
  toolChoice : Option ToolChoice
  reasoningEffort : String

/-- The message loop of `StreamOptions.Validate`: first invalid message
fails with its index prefixed. -/
def validateMessagesLoop (i : Nat) : List Msg → Option String
  | [] => none
  | m :: rest =>
      match m.Validate with
      | some e => some ("messages[" ++ toString i ++ "]: " ++ e)
      | none => validateMessagesLoop (i + 1) rest

/-- The tool-choice checks of `StreamOptions.Validate`
(`src/provider.go:77-96`): reject a set `ToolChoice` without tools, and a
`ToolChoiceTool` with an empty or unknown name (the Go type assertion
`o.ToolChoice.(ToolChoiceTool)`). -/
def validateToolChoice (o : StreamOptions) : Option String :=
  if o.toolChoice.isSome ∧ o.tools.isEmpty then
    some "ToolChoice set but no Tools provided"
  else
    match o.toolChoice with
    | some (.tool nm) =>
        if nm = "" then some "ToolChoiceTool.Name is required"
        else if o.tools.any (fun t => t.name = nm) then none
        else some ("ToolChoiceTool references unknown tool \"" ++ nm ++ "\"")
    | _ => none

/-- `StreamOptions.Validate` (`src/provider.go:69-99`): validate every
message, then the tool-choice constraints. -/
def StreamOptions.Validate (o : StreamOptions) : Option String :=
  match validateMessagesLoop 0 o.messages with
  | some e => some e
  | none => validateToolChoice o

/-! ## Tool dispatch (`ToolSet`, `src/tool.go:148-225`) -/

/-- A parsed tool call as exposed by the `ParsedToolCall` interface
(`ToolCallID()` and `ToolName()`); the typed payload `T` plays no role in
the dispatch contract. -/
structure ParsedToolCall where
  id : String
  name : String
deriving DecidableEq

/-- A `toolRegistration` (`src/tool.go:140-143`): a tool definition plus
the spec's `parse` (schema validation + decode), abstracted as a function
since its body delegates to an external JSON-schema library. -/
structure ToolRegistration where
  definition : ToolDefinition
  parseCall : ToolCall → Except String ParsedToolCall

/-- `NewToolSet` (`src/tool.go:166-176`): keeps the given order and builds
a name-keyed index (a later duplicate name overwrites the earlier entry). -/
structure ToolSet where
  tools : List ToolRegistration
  index : List (String × ToolRegistration)

def NewToolSet (regs : List ToolRegistration) : ToolSet :=
  { tools := regs
    index := regs.foldl (fun idx r => setKey idx r.definition.name r) [] }

/-- The loop of `ToolSet.Parse` (`src/tool.go:206-225`), carrying the
`result` and `errs` accumulators exactly as the Go loop appends to them. -/
def parseLoop (index : List (String × ToolRegistration))
    (results : List ParsedToolCall) (errs : List String) :
    List ToolCall → List ParsedToolCall × List String
  | [] => (results, errs)
  | call :: rest =>
      match getKey index call.name with
      | none => parseLoop index results (errs ++ ["unknown tool: " ++ call.name]) rest
      | some reg =>
          match reg.parseCall call with
          | .error e => parseLoop index results (errs ++ [e]) rest
          | .ok parsed => parseLoop index (results ++ [parsed]) errs rest

/-- `ToolSet.Parse`: every successfully parsed call, plus the collected
error list. -/
def ToolSet.Parse (ts : ToolSet) (calls : List ToolCall) :
    List ParsedToolCall × List String :=
  parseLoop ts.index [] [] calls

/-- `errors.Join` over the collected errors: nil iff the list is empty,
otherwise one error whose text is the messages joined by newlines. -/
def joinErrors (errs : List String) : Option String :=
  match errs with
  | [] => none
  | _ => some (String.intercalate "\n" errs)

/-! ## Provider registry (`Registry`, source alongside `src/unnamed/part_004`) -/

/-- `Model` (`src/api.go:26-30`). -/
structure Model where
  id : String
  name : String
  provider : String
deriving DecidableEq

/-- The slice of a `Provider` implementation the registry reads: `Name()`
and `Models()` (`CreateStream` performs I/O and is not needed by the
resolution claims). -/
structure ProviderM where
  name : String
  models : List Model

/-- A Go error as the registry produces it: a message plus the sentinel it
wraps, so that `errors.Is(err, ErrNotFound)` / `errors.Is(err, ErrBadRequest)`
are `wraps = some _`. -/
inductive Sentinel where
  | notFound
  | badRequest
deriving DecidableEq

structure GoError where
  msg : String
  wraps : Option Sentinel

/-- `Registry` (`part_004:162-165`). -/
structure Registry where
  models : List Model
  providers : List (String × ProviderM)

def NewRegistry : Registry := { models := [], providers := [] }

/-- `Registry.Register` (`part_004:173-182`): store by name (silently
replacing a previous entry) and append flattened `name/modelId` models. -/
def Registry.Register (r : Registry) (p : ProviderM) : Registry :=
  { providers := setKey r.providers p.name p
    models := r.models ++ p.models.map (fun m =>
      { id := p.name ++ "/" ++ m.id, name := m.name, provider := p.name }) }

/-- `Registry.Provider` (`part_004:185-191`). -/
def Registry.Provider (r : Registry) (name : String) : Except GoError ProviderM :=
  match getKey r.providers name with
  | none => .error ⟨"provider \"" ++ name ++ "\": not found", some .notFound⟩
  | some p => .ok p

/-- `strings.SplitN(ref, "/", 2)` yields two parts exactly when the string
contains a `/`; this returns the text before and after the first one. -/
def splitFirstSlash : List Char → Option (List Char × List Char)
  | [] => none
  | c :: rest =>
      if c = '/' then some ([], rest)
      else (splitFirstSlash rest).map (fun p => (c :: p.1, p.2))

/-- `Registry.ResolveModel` (`part_004:194-204`): split on the first `/`;
fewer than two parts is a bad-request error, an unknown provider name is
the not-found error from `Registry.Provider`, otherwise the provider and
the bare model id. -/
def Registry.ResolveModel (r : Registry) (ref : String) :
    Except GoError (ProviderM × String) :=
  match splitFirstSlash ref.data with
  | none =>
      .error ⟨"invalid model reference \"" ++ ref ++ "\", expected provider/model: bad request",
              some .badRequest⟩
  | some (p, m) =>
      match r.Provider (String.mk p) with
      | .error e => .error e
      | .ok prov => .ok (prov, String.mk m)

end LlmRepo

namespace LlmRepo

/-! ## Stream events and the two adapter state machines
(`src/provider/openai/openai.go:241-387`,
`src/provider/openrouter/models.go:447-625`) -/

/-- `Usage` token counts (`src/provider.go:42-47`; the openrouter adapter
additionally fills cached/reasoning token details).  The float64 `Cost`
field is not modelled — no claim below reads it. -/
structure Usage where
  inputTokens : Int
  outputTokens : Int
  totalTokens : Int
  cachedTokens : Int
  reasoningTokens : Int
deriving DecidableEq

/-- The usage block of a decoded SSE chunk (`prompt_tokens`,
`completion_tokens`, `total_tokens`, plus the detail sub-objects, zero
when absent). -/
structure WireUsage where
  promptTokens : Int
  completionTokens : Int
  totalTokens : Int
  cachedTokens : Int
  reasoningTokens : Int
deriving DecidableEq

/-- Causes carried by a terminal `Error` event. -/
inductive ErrCause where
  | canceled
  | scanError (msg : String)
  | apiError (msg : String)
deriving DecidableEq

/-- `StreamEvent` (`src/provider.go:50-57`), tagged by
`StreamEventType`.  A `toolCall`'s `args = none` models a nil
`Arguments` map. -/
inductive Event where
  | delta (text : String)
  | reasoning (text : String)
  | toolCall (id name : String) (args : Option (List (String × Json)))
  | done (usage : Option Usage)
  | error (cause : ErrCause)

/-- One entry of a chunk's `delta.tool_calls` array. -/
structure ToolCallDelta where
  index : Int
  id : String
  name : String
  arguments : String
deriving DecidableEq

/-- One entry of a chunk's `choices` array (the superset of the fields the
two adapters declare; the openai `streamChunk` type has no
`reasoning_content` field, so that adapter never reads it). -/
structure ChunkChoice where
  content : String
  reasoningContent : String
  toolCalls : List ToolCallDelta
  finishReason : Option String
deriving DecidableEq

/-- A decoded `data:` chunk (again the superset: only the openrouter
`streamChunk` declares the `error` field). -/
structure Chunk where
  choices : List ChunkChoice
  usage : Option WireUsage
  errorMsg : Option String
deriving DecidableEq

/-- A raw SSE line as the read loops classify it: a line without the
`data: ` prefix, the `data: [DONE]` marker, a data line whose chunk JSON
fails to decode, or a decoded chunk. -/
inductive RawLine where
  | other
  | doneMark
  | badJson
  | chunk (c : Chunk)
deriving DecidableEq

/-- `toolAccum` (both adapters): call id, name and the argument string
buffer. -/
structure ToolAccum where
  id : String
  name : String
  argsBuf : String

/-- One `delta.tool_calls` entry applied to an accumulator: non-empty id
and name overwrite, a non-empty fragment is appended verbatim to the
buffer. -/
def ToolAccum.applyDelta (a : ToolAccum) (tc : ToolCallDelta) : ToolAccum :=
  { id := if tc.id = "" then a.id else tc.id
    name := if tc.name = "" then a.name else tc.name
    argsBuf := if tc.arguments = "" then a.argsBuf else a.argsBuf ++ tc.arguments }

/-- The `activeTools[tc.Index]` upsert: update the entry in place, or
allocate a fresh one at the end (the association list remembers map
insertion order). -/
def updateTable : List (Int × ToolAccum) → ToolCallDelta → List (Int × ToolAccum)
  | [], tc => [(tc.index, ToolAccum.applyDelta ⟨"", "", ""⟩ tc)]
  | (i, a) :: rest, tc =>
      if i = tc.index then (i, a.applyDelta tc) :: rest
      else (i, a) :: updateTable rest tc

/-- The `for _, tc := range choice.Delta.ToolCalls` loop. -/
def accumulate (tbl : List (Int × ToolAccum)) (tcs : List ToolCallDelta) :
    List (Int × ToolAccum) :=
  tcs.foldl updateTable tbl

/-- The arguments a finalized buffer yields: `json.Unmarshal` into a
`map[string]any` when the buffer is non-empty, ignoring the error (a nil
map results whenever the buffer is empty, malformed, or not a JSON
object). -/
def argsOfBuf (s : String) : Option (List (String × Json)) :=
  if s = "" then none else JsonText.unmarshalMap s

/-- Finalizing one accumulator into its `ToolCall` event. -/
def ToolAccum.finalize (a : ToolAccum) : Event :=
  .toolCall a.id a.name (argsOfBuf a.argsBuf)

/-- `emitToolCalls` of the openai adapter
(`src/provider/openai/openai.go:371-387`): emit every entry; the table is
NOT mutated.  (Go ranges the map in unspecified order; insertion order is
used here, and no claim depends on the order across entries.) -/
def emitToolCallsOpenai (tbl : List (Int × ToolAccum)) : List Event :=
  tbl.map (fun p => p.2.finalize)

def eraseKeyInt : List (Int × ToolAccum) → Int → List (Int × ToolAccum)
  | [], _ => []
  | (i, a) :: rest, k => if i = k then rest else (i, a) :: eraseKeyInt rest k

/-- The loop of the openrouter `emitToolCalls`
(`src/provider/openrouter/models.go:609-625`): emit each entry and
`delete` its index from the table. -/
def emitLoopOpenrouter : List (Int × ToolAccum) → List (Int × ToolAccum) →
    List Event × List (Int × ToolAccum)
  | [], tbl => ([], tbl)
  | (i, a) :: pending, tbl =>
      let step := emitLoopOpenrouter pending (eraseKeyInt tbl i)
      (a.finalize :: step.1, step.2)

/-- `emitToolCalls` of the openrouter adapter: emits every entry and
returns the table with all of them deleted. -/
def emitToolCallsOpenrouter (tbl : List (Int × ToolAccum)) :
    List Event × List (Int × ToolAccum) :=
  emitLoopOpenrouter tbl tbl

/-- Whether `ctx.Done()` is already closed at loop iteration `i`
(cancellation is monotone: from index `k` onward). -/
def canceledAt : Option Nat → Nat → Bool
  | none, _ => false
  | some k, i => k ≤ i

/-- The openai adapter's usage conversion
(`src/provider/openai/openai.go:314-320`): only the three token counts. -/
def oaiUsage (u : WireUsage) : Usage :=
  ⟨u.promptTokens, u.completionTokens, u.totalTokens, 0, 0⟩

structure OaiState where
  activeTools : List (Int × ToolAccum)
  finalUsage : Option Usage

/-- The outcome of one loop-body iteration: either keep reading with the
events it sent and the new state, or return (the Go `return` statements),
having sent `evs` last. -/
inductive StepOut (σ : Type) where
  | next (evs : List Event) (st : σ)
  | halt (evs : List Event)

/-- One iteration of the openai read loop body after the cancellation
check (`src/provider/openai/openai.go:294-360`): skip non-data and
undecodable lines, return `Done` on `[DONE]`, record usage, accumulate
tool-call deltas, emit a text delta, and on `finish_reason ==
"tool_calls"` emit the accumulated tool calls (the table is not
cleared). -/
def openaiStep (st : OaiState) : RawLine → StepOut OaiState
  | .other => .next [] st
  | .badJson => .next [] st
  | .doneMark => .halt [.done st.finalUsage]
  | .chunk c =>
      let st₁ :=
        match c.usage with
        | some u => { st with finalUsage := some (oaiUsage u) }
        | none => st
      match c.choices with
      | [] => .next [] st₁
      | choice :: _ =>
          let st₂ := { st₁ with activeTools := accumulate st₁.activeTools choice.toolCalls }
          .next ((if choice.content = "" then [] else [.delta choice.content])
              ++ (match choice.finishReason with
                  | some r =>
                      if r = "tool_calls" then emitToolCallsOpenai st₂.activeTools else []
                  | none => []))
            st₂

/-- The read loop of the openai `parseStream`
(`src/provider/openai/openai.go:272-369`), one iteration per raw line,
checking cancellation first.  When the lines run out, a scanner error
yields a terminal `Error`; otherwise nothing more is emitted before the
channel closes. -/
def openaiLoop (cancelAt : Option Nat) (scanErr : Option String) :
    Nat → OaiState → List RawLine → List Event
  | _, _, [] =>
      (match scanErr with
       | some m => [.error (.scanError ("stream scan error: " ++ m))]
       | none => [])
  | i, st, line :: rest =>
      if canceledAt cancelAt i then [.error .canceled]
      else
        match openaiStep st line with
        | .next evs st' => evs ++ openaiLoop cancelAt scanErr (i + 1) st' rest
        | .halt evs => evs

/-- `parseStream` of the openai adapter, as the list of events sent on the
channel before it is closed. -/
def openaiParseStream (cancelAt : Option Nat) (lines : List RawLine)
    (scanErr : Option String) : List Event :=
  openaiLoop cancelAt scanErr 0 ⟨[], none⟩ lines

/-- The openrouter usage conversion
(`src/provider/openrouter/models.go:541-554`). -/
def orUsage (u : WireUsage) : Usage :=
  ⟨u.promptTokens, u.completionTokens, u.totalTokens, u.cachedTokens, u.reasoningTokens⟩

structure OrState where
  activeTools : List (Int × ToolAccum)
  usage : Option Usage

/-- One iteration of the openrouter read loop body after the cancellation
check (`src/provider/openrouter/models.go:513-599`): like the openai body,
plus a reasoning channel, an in-band API error chunk (terminal `Error`
return), and finalization on `finish_reason ∈ {"tool_calls", "stop"}`,
which also empties the accumulator table. -/
def openrouterStep (st : OrState) : RawLine → StepOut OrState
  | .other => .next [] st
  | .badJson => .next [] st
  | .doneMark => .halt [.done st.usage]
  | .chunk c =>
      match c.errorMsg with
      | some m => .halt [.error (.apiError ("openrouter: " ++ m))]
      | none =>
          let st₁ :=
            match c.usage with
            | some u => { st with usage := some (orUsage u) }
            | none => st
          match c.choices with
          | [] => .next [] st₁
          | choice :: _ =>
              let evs :=
                (if choice.reasoningContent = "" then []
                 else [Event.reasoning choice.reasoningContent])
                ++ (if choice.content = "" then [] else [Event.delta choice.content])
              let tbl := accumulate st₁.activeTools choice.toolCalls
              match choice.finishReason with
              | some r =>
                  if r = "tool_calls" ∨ r = "stop" then
                    let flushed := emitToolCallsOpenrouter tbl
                    .next (evs ++ flushed.1) { st₁ with activeTools := flushed.2 }
                  else .next evs { st₁ with activeTools := tbl }
              | none => .next evs { st₁ with activeTools := tbl }

/-- The read loop of the openrouter `parseStream`
(`src/provider/openrouter/models.go:491-607`): when the lines run out
without `[DONE]`, the remaining accumulators are flushed and a `Done` is
emitted. -/
def openrouterLoop (cancelAt : Option Nat) :
    Nat → OrState → List RawLine → List Event
  | _, st, [] =>
      (emitToolCallsOpenrouter st.activeTools).1 ++ [.done st.usage]
  | i, st, line :: rest =>
      if canceledAt cancelAt i then [.error .canceled]
      else
        match openrouterStep st line with
        | .next evs st' => evs ++ openrouterLoop cancelAt (i + 1) st' rest
        | .halt evs => evs

/-- `parseStream` of the openrouter adapter (it never consults
`scanner.Err()`, so the event list depends only on the delivered lines). -/
def openrouterParseStream (cancelAt : Option Nat) (lines : List RawLine) :
    List Event :=
  openrouterLoop cancelAt 0 ⟨[], none⟩ lines

/-- A terminal event: `Done` or `Error`. -/
def Event.isTerminal : Event → Bool
  | .done _ => true
  | .error _ => true
  | _ => false

end LlmRepo

namespace LlmRepo

/-! ## Helper lemmas -/

theorem splitFirstSlash_of_no_slash :
    ∀ cs : List Char, '/' ∉ cs → splitFirstSlash cs = none := by
  intro cs h
  induction cs with
  | nil => rfl
  | cons c rest ih =>
      simp only [List.mem_cons, not_or] at h
      simp [splitFirstSlash, Ne.symm h.1, ih h.2]

theorem splitFirstSlash_append (cs ds : List Char) (h : '/' ∉ cs) :
    splitFirstSlash (cs ++ '/' :: ds) = some (cs, ds) := by
  induction cs with
  | nil => rfl
  | cons c rest ih =>
      simp only [List.mem_cons, not_or] at h
      simp [splitFirstSlash, Ne.symm h.1, ih h.2]

theorem validateMessagesLoop_none_iff :
    ∀ (ms : List Msg) (i : Nat),
      validateMessagesLoop i ms = none ↔ ∀ m ∈ ms, m.Validate = none := by
  intro ms
  induction ms with
  | nil => intro i; simp [validateMessagesLoop]
  | cons m rest ih =>
      intro i
      cases hv : m.Validate with
      | some e => simp [validateMessagesLoop, hv]
      | none => simp [validateMessagesLoop, hv, ih (i + 1)]

/-- The outcome of dispatching one call against the tool index: the parsed
call when the name is known and the spec's parse succeeds. -/
def successParse (index : List (String × ToolRegistration)) (c : ToolCall) :
    Option ParsedToolCall :=
  match getKey index c.name with
  | none => none
  | some reg => (reg.parseCall c).toOption

/-- The error one call contributes, if any: the unknown-name message or
the spec parse error. -/
def failMsg (index : List (String × ToolRegistration)) (c : ToolCall) :
    Option String :=
  match getKey index c.name with
  | none => some ("unknown tool: " ++ c.name)
  | some reg =>
      match reg.parseCall c with
      | .error e => some e
      | .ok _ => none

theorem parseLoop_spec :
    ∀ (calls : List ToolCall) (idx : List (String × ToolRegistration))
      (results : List ParsedToolCall) (errs : List String),
      parseLoop idx results errs calls =
        (results ++ calls.filterMap (successParse idx),
         errs ++ calls.filterMap (failMsg idx)) := by
  intro calls
  induction calls with
  | nil => intro idx results errs; simp [parseLoop]
  | cons c rest ih =>
      intro idx results errs
      cases hk : getKey idx c.name with
      | none =>
          have hs : successParse idx c = none := by simp [successParse, hk]
          have hf : failMsg idx c = some ("unknown tool: " ++ c.name) := by
            simp [failMsg, hk]
          simp [parseLoop, hk, ih, List.filterMap_cons, hs, hf]
      | some reg =>
          cases hp : reg.parseCall c with
          | error e =>
              have hs : successParse idx c = none := by
                simp [successParse, hk, hp, Except.toOption]
              have hf : failMsg idx c = some e := by simp [failMsg, hk, hp]
              simp [parseLoop, hk, hp, ih, List.filterMap_cons, hs, hf]
          | ok parsed =>
              have hs : successParse idx c = some parsed := by
                simp [successParse, hk, hp, Except.toOption]
              have hf : failMsg idx c = none := by simp [failMsg, hk, hp]
              simp [parseLoop, hk, hp, ih, List.filterMap_cons, hs, hf]

theorem joinErrors_eq_none_iff (errs : List String) :
    joinErrors errs = none ↔ errs = [] := by
  cases errs <;> simp [joinErrors]

/-! ## Claims -/

/-- Demo registry content for the resolution examples. -/
def anthropicDemo : ProviderM :=
  ⟨"anthropic", [⟨"claude-3-5-haiku", "Claude 3.5 Haiku", "anthropic"⟩]⟩

/-- C6: `Registry.ResolveModel` splits the reference on the first `/`:
no slash fails with the bad-request error, an unregistered provider part
fails with the not-found error, and otherwise it returns the registered
provider together with everything after the first slash; in particular
`"anthropic/claude-3-5-haiku"` resolves to the anthropic provider and
`"claude-3-5-haiku"`, `"invalid"` is a bad request, and `"missing/x"` is
not found. -/
theorem c6_resolve_model_split_and_errors :
    (∀ (r : Registry) (ref : String), '/' ∉ ref.data →
        ∃ e, r.ResolveModel ref = .error e ∧ e.wraps = some Sentinel.badRequest)
    ∧ (∀ (r : Registry) (p m : String), '/' ∉ p.data →
        getKey r.providers p = none →
        ∃ e, r.ResolveModel (p ++ "/" ++ m) = .error e ∧ e.wraps = some Sentinel.notFound)
    ∧ (∀ (r : Registry) (p m : String) (prov : ProviderM), '/' ∉ p.data →
        getKey r.providers p = some prov →
        r.ResolveModel (p ++ "/" ++ m) = .ok (prov, m))
    ∧ (NewRegistry.Register anthropicDemo).ResolveModel "anthropic/claude-3-5-haiku"
        = .ok (anthropicDemo, "claude-3-5-haiku")
    ∧ (NewRegistry.Register anthropicDemo).ResolveModel "invalid"
        = .error ⟨"invalid model reference \"invalid\", expected provider/model: bad request",
                  some Sentinel.badRequest⟩
    ∧ (NewRegistry.Register anthropicDemo).ResolveModel "missing/x"
        = .error ⟨"provider \"missing\": not found", some Sentinel.notFound⟩ := by
  refine ⟨?_, ?_, ?_, by rfl, by rfl, by rfl⟩
  · intro r ref h
    refine ⟨⟨"invalid model reference \"" ++ ref ++ "\", expected provider/model: bad request",
             some Sentinel.badRequest⟩, ?_, rfl⟩
    simp [Registry.ResolveModel, splitFirstSlash_of_no_slash ref.data h]
  · intro r p m h hk
    have hdata : (p ++ "/" ++ m).data = p.data ++ '/' :: m.data := by
      simp [String.data_append]
    refine ⟨⟨"provider \"" ++ p ++ "\": not found", some Sentinel.notFound⟩, ?_, rfl⟩
    simp only [Registry.ResolveModel, hdata, splitFirstSlash_append p.data m.data h]
    have hp : String.mk p.data = p := rfl
    simp [Registry.Provider, hp, hk]
  · intro r p m prov h hk
    have hdata : (p ++ "/" ++ m).data = p.data ++ '/' :: m.data := by
      simp [String.data_append]
    simp only [Registry.ResolveModel, hdata, splitFirstSlash_append p.data m.data h]
    have hp : String.mk p.data = p := rfl
    have hm : String.mk m.data = m := rfl
    simp [Registry.Provider, hp, hm, hk]

/-- Witness for C6: the hypotheses are dischargeable at the concrete
reference `"invalid"`. -/
theorem c6_resolve_model_witness :
    ('/' ∉ "invalid".data)
    ∧ (∃ e, (NewRegistry.Register anthropicDemo).ResolveModel "invalid" = .error e
        ∧ e.wraps = some Sentinel.badRequest) :=
  ⟨by decide,
   c6_resolve_model_split_and_errors.1 (NewRegistry.Register anthropicDemo) "invalid"
     (by decide)⟩

end LlmRepo

namespace LlmRepo

/-- C10: `ToolDefinition` validation fails exactly when the name is empty,
or the parameters mapping is present and carries a `type` key whose value
is other than the string `"object"`; a non-empty name with absent,
type-less, or empty parameters validates.  (Settled against the
spec-modelled `ToolDefinition.Validate`.) -/
theorem c10_tool_definition_validate :
    (∀ td : ToolDefinition,
        td.Validate ≠ none ↔
          (td.name = ""
           ∨ ∃ ps v, td.parameters = some ps ∧ lookupField ps "type" = some v
               ∧ v ≠ Json.str "object"))
    ∧ ToolDefinition.Validate ⟨"get_weather", "", some [("type", Json.str "object")]⟩ = none
    ∧ ToolDefinition.Validate ⟨"simple_tool", "", none⟩ = none
    ∧ ToolDefinition.Validate ⟨"empty_params", "", some []⟩ = none := by
  refine ⟨?_, by rfl, by rfl, by rfl⟩
  rintro ⟨nm, desc, params⟩
  simp only [ToolDefinition.Validate]
  by_cases hn : nm = ""
  · simp [hn]
  · simp only [hn, if_false, false_or]
    cases params with
    | none => simp
    | some ps =>
        cases hl : lookupField ps "type" with
        | none => simp [hl]
        | some v =>
            cases v with
            | str t =>
                by_cases ht : t = "object"
                · simp [hl, ht]
                · simp only [hl, ht, if_false, ne_eq, reduceCtorEq, not_false_eq_true,
                    true_iff, Option.some.injEq]
                  exact ⟨ps, Json.str t, rfl, hl, fun hc => ht (by injection hc)⟩
            | null => simp [hl]
            | bool b => simp [hl]
            | num s => simp [hl]
            | arr xs => simp [hl]
            | obj fs => simp [hl]

theorem validateToolChoice_ne_none_iff (o : StreamOptions) :
    validateToolChoice o ≠ none ↔
      ((o.toolChoice.isSome ∧ o.tools = [])
       ∨ (∃ nm, o.toolChoice = some (ToolChoice.tool nm)
            ∧ (nm = "" ∨ ∀ t ∈ o.tools, t.name ≠ nm))) := by
  cases htc : o.toolChoice with
  | none => simp [validateToolChoice, htc]
  | some tc =>
      by_cases he : o.tools = []
      · have hemp : o.tools.isEmpty = true := by simp [he]
        simp [validateToolChoice, htc, hemp, he]
      · have hne : o.tools.isEmpty = false := by
          cases ht : o.tools with
          | nil => exact absurd ht he
          | cons a l => rfl
        cases tc with
        | auto => simp [validateToolChoice, htc, hne, he]
        | required => simp [validateToolChoice, htc, hne, he]
        | noTool => simp [validateToolChoice, htc, hne, he]
        | tool nm =>
            by_cases hnm : nm = ""
            · simp [validateToolChoice, htc, hne, he, hnm]
            · cases hany : o.tools.any (fun t => t.name = nm) with
              | true =>
                  obtain ⟨t, htm, htn⟩ : ∃ t ∈ o.tools, t.name = nm := by
                    simpa using hany
                  have hval : validateToolChoice o = none := by
                    simp [validateToolChoice, htc, hne, hnm, hany]
                  simp only [hval, ne_eq, not_true_eq_false, false_iff]
                  rintro (⟨hs, hnil⟩ | ⟨nm', hnm', hbad⟩)
                  · exact he hnil
                  · obtain rfl : nm' = nm := by
                      injection hnm' with h1
                      injection h1 with h2
                      exact h2.symm
                    rcases hbad with h | hfor
                    · exact hnm h
                    · exact hfor t htm htn
              | false =>
                  have hforall : ∀ t ∈ o.tools, t.name ≠ nm := by
                    intro t ht
                    simpa using List.any_eq_false.1 hany t ht
                  simp only [validateToolChoice, htc, hne, he, hnm, hany]
                  simp [hnm]
                  exact hforall

/-- C7: `StreamOptions.Validate` fails exactly when some message is
individually invalid, or a tool choice is set with an empty tool list, or
the choice is `ToolChoiceTool` with an empty or unknown name; it succeeds
for `ToolChoiceTool{"get_weather"}` with a matching definition present. -/
theorem c7_stream_options_validate :
    (∀ o : StreamOptions,
        o.Validate ≠ none ↔
          ((∃ m ∈ o.messages, m.Validate ≠ none)
           ∨ (o.toolChoice.isSome ∧ o.tools = [])
           ∨ (∃ nm, o.toolChoice = some (ToolChoice.tool nm)
                ∧ (nm = "" ∨ ∀ t ∈ o.tools, t.name ≠ nm))))
    ∧ StreamOptions.Validate
        { model := "gpt-4", messages := [],
          tools := [⟨"get_weather", "Get weather", some [("type", Json.str "object")]⟩],
          toolChoice := some (.tool "get_weather"), reasoningEffort := "" } = none := by
  refine ⟨?_, by rfl⟩
  intro o
  cases hv : validateMessagesLoop 0 o.messages with
  | some e =>
      have hex : ∃ m ∈ o.messages, m.Validate ≠ none := by
        by_contra hall
        push_neg at hall
        have hnone : validateMessagesLoop 0 o.messages = none :=
          (validateMessagesLoop_none_iff o.messages 0).2 hall
        rw [hnone] at hv
        cases hv
      simp [StreamOptions.Validate, hv, hex]
  | none =>
      have hmsgs : ¬ ∃ m ∈ o.messages, m.Validate ≠ none := by
        have hall := (validateMessagesLoop_none_iff o.messages 0).1 hv
        rintro ⟨m, hm, hne⟩
        exact hne (hall m hm)
      simp only [StreamOptions.Validate, hv, hmsgs, false_or]
      exact validateToolChoice_ne_none_iff o

/-- The tool registration used by the C5 example: `"known"` with a parse
that always succeeds. -/
def demoKnownReg : ToolRegistration :=
  ⟨⟨"known", "", none⟩, fun c => .ok ⟨c.id, c.name⟩⟩

def demoToolSet : ToolSet := NewToolSet [demoKnownReg]

def demoCalls : List ToolCall :=
  [⟨"1", "known", some [("value", .str "ok")]⟩,
   ⟨"2", "unknown", some [("value", .str "bad")]⟩]

/-- C5: `ToolSet.Parse` returns every successfully parsed call (unknown
names and failing spec parses are excluded, each contributing its error),
and the joined error is nil exactly when no call failed; parsing
`[known, unknown]` with only `"known"` registered returns one result and
the joined error `"unknown tool: unknown"`. -/
theorem c5_toolset_parse_partial_success :
    (∀ (ts : ToolSet) (calls : List ToolCall),
        (ts.Parse calls).1 = calls.filterMap (successParse ts.index)
        ∧ (ts.Parse calls).2 = calls.filterMap (failMsg ts.index)
        ∧ (joinErrors (ts.Parse calls).2 = none ↔ ∀ c ∈ calls, failMsg ts.index c = none))
    ∧ (demoToolSet.Parse demoCalls).1 = [⟨"1", "known"⟩]
    ∧ joinErrors (demoToolSet.Parse demoCalls).2 = some "unknown tool: unknown" := by
  refine ⟨?_, by rfl, by rfl⟩
  intro ts calls
  have hspec := parseLoop_spec calls ts.index [] []
  refine ⟨by simp [ToolSet.Parse, hspec], by simp [ToolSet.Parse, hspec], ?_⟩
  rw [ToolSet.Parse, hspec]
  simp [joinErrors_eq_none_iff, List.filterMap_eq_nil_iff]

end LlmRepo

namespace LlmRepo

theorem decode_encode_toolCall (i : Nat) (tc : ToolCall) :
    decodeToolCall i (encodeToolCall tc) = .ok tc := by
  rcases tc with ⟨id, name, args⟩
  cases args <;> rfl

theorem decodeToolCallList_encode (i : Nat) (tcs : List ToolCall) :
    decodeToolCallList i (tcs.map encodeToolCall) = .ok tcs := by
  induction tcs with
  | nil => rfl
  | cons t rest ih =>
      simp only [List.map_cons, decodeToolCallList, decode_encode_toolCall i t, ih]
      rfl

theorem decodeRecord_encode (i : Nat) (m : Msg) :
    decodeRecord i (encodeMsg m) = .ok m := by
  cases m with
  | system c => rfl
  | user c => rfl
  | assistant c tcs =>
      rcases tcs with _ | ⟨t, rest⟩ <;> by_cases hc : c = "" <;>
        simp [encodeMsg, hc, decodeRecord, peekRole, lookupField, getStringField,
          getToolCallsField, ← List.map_cons, decodeToolCallList_encode] <;>
        try rfl
  | toolResult id out isErr =>
      cases isErr <;> rfl

theorem decodeRecords_encode (ms : List Msg) :
    ∀ i, decodeRecords i (ms.map encodeMsg) = .ok ms := by
  induction ms with
  | nil => intro i; rfl
  | cons m rest ih =>
      intro i
      simp only [List.map_cons, decodeRecords, decodeRecord_encode i m, ih (i + 1)]
      rfl

/-- C8: for every message of any of the four variants — including an
assistant carrying tool calls with nested argument structures —
deserializing the serialized wire form yields the message back: same
variant, content, tool calls (id, name, arguments) and
toolCallId/output/isError.  (Proved for every message, valid or not, and
for whole sequences at once.) -/
theorem c8_message_round_trip (ms : List Msg) :
    decodeMessages (encodeMessages ms) = .ok ms := by
  simpa [encodeMessages, decodeMessages] using decodeRecords_encode ms 0

end LlmRepo

namespace LlmRepo

/-- Whether one wire record falls into `Messages.UnmarshalJSON`'s
unknown-role default: a record whose role discriminator is missing (the
peeked role stays the zero value `""`) or is a string other than the four
recognized roles. -/
def roleUnrecognized (j : Json) : Bool :=
  match j with
  | .null => true
  | .obj fs =>
      match lookupField fs "role" with
      | none => true
      | some .null => true
      | some (.str s) =>
          decide (¬ (s = "system" ∨ s = "user" ∨ s = "assistant" ∨ s = "tool"))
      | some _ => false
  | _ => false

/-- `sub` occurs inside `s`. -/
def containsSubstr (s sub : String) : Prop :=
  ∃ pre post : List Char, s.data = pre ++ sub.data ++ post

theorem except_bind_ok {α β : Type} (a : α) (f : α → Except String β) :
    (Except.ok a : Except String α).bind f = f a := rfl

theorem except_bind_error {α β : Type} (e : String) (f : α → Except String β) :
    (Except.error e : Except String α).bind f = .error e := rfl

theorem except_bindM_ok {α β : Type} (a : α) (f : α → Except String β) :
    ((Except.ok a : Except String α) >>= f) = f a := rfl

theorem except_bindM_error {α β : Type} (e : String) (f : α → Except String β) :
    ((Except.error e : Except String α) >>= f) = .error e := rfl

theorem except_fmap_ok {α β : Type} (f : α → β) (a : α) :
    (f <$> (Except.ok a : Except String α)) = .ok (f a) := rfl

theorem except_fmap_error {α β : Type} (f : α → β) (e : String) :
    (f <$> (Except.error e : Except String α)) = .error e := rfl

theorem except_map_ok {α β : Type} (f : α → β) (a : α) :
    Except.map f (Except.ok a : Except String α) = .ok (f a) := rfl

theorem except_map_error {α β : Type} (f : α → β) (e : String) :
    Except.map f (Except.error e : Except String α) = .error e := rfl

theorem decodeRecord_unknown_role (i : Nat) (j : Json)
    (h : roleUnrecognized j = true) :
    ∃ r, decodeRecord i j
      = .error ("message[" ++ toString i ++ "]: unknown role \"" ++ r ++ "\"") := by
  cases j with
  | null => exact ⟨"", rfl⟩
  | obj fs =>
      simp only [roleUnrecognized] at h
      cases hl : lookupField fs "role" with
      | none => exact ⟨"", by simp [decodeRecord, peekRole, hl]⟩
      | some v =>
          cases v with
          | null => exact ⟨"", by simp [decodeRecord, peekRole, hl]⟩
          | str s =>
              rw [hl] at h
              have hs : ¬ (s = "system" ∨ s = "user" ∨ s = "assistant" ∨ s = "tool") := by
                simpa using h
              push_neg at hs
              obtain ⟨h1, h2, h3, h4⟩ := hs
              exact ⟨s, by simp [decodeRecord, peekRole, hl, h1, h2, h3, h4]⟩
          | bool b => rw [hl] at h; simp at h
          | num s => rw [hl] at h; simp at h
          | arr xs => rw [hl] at h; simp at h
          | obj fs2 => rw [hl] at h; simp at h
  | bool b => simp [roleUnrecognized] at h
  | num s => simp [roleUnrecognized] at h
  | str s => simp [roleUnrecognized] at h
  | arr xs => simp [roleUnrecognized] at h

theorem decodeRecords_error_of_bad :
    ∀ (items : List Json) (i : Nat), (∃ j ∈ items, roleUnrecognized j = true) →
      ∃ e, decodeRecords i items = .error e := by
  intro items
  induction items with
  | nil =>
      rintro i ⟨j, hj, _⟩
      cases hj
  | cons x rest ih =>
      rintro i ⟨j, hj, hbad⟩
      rcases List.mem_cons.1 hj with rfl | hmem
      · obtain ⟨r, hr⟩ := decodeRecord_unknown_role i j hbad
        refine ⟨"message[" ++ toString i ++ "]: unknown role \"" ++ r ++ "\"", ?_⟩
        simp [decodeRecords, hr, except_bindM_error]
      · cases hd : decodeRecord i x with
        | error e =>
            refine ⟨e, ?_⟩
            simp [decodeRecords, hd, except_bindM_error]
        | ok m =>
            obtain ⟨e, he⟩ := ih (i + 1) ⟨j, hmem, hbad⟩
            refine ⟨e, ?_⟩
            simp [decodeRecords, hd, he, except_bindM_ok, except_bindM_error,
              except_fmap_error]

theorem decodeRecords_append (xs ys : List Json) : ∀ i,
    decodeRecords i (xs ++ ys) =
      (decodeRecords i xs).bind (fun ms =>
        (decodeRecords (i + xs.length) ys).map (fun ms' => ms ++ ms')) := by
  induction xs with
  | nil =>
      intro i
      simp only [List.nil_append, decodeRecords, List.length_nil, Nat.add_zero,
        except_bind_ok]
      cases decodeRecords i ys <;>
        simp [except_map_ok, except_map_error]
  | cons x rest ih =>
      intro i
      simp only [List.cons_append, decodeRecords, List.length_cons]
      have harith : i + (rest.length + 1) = (i + 1) + rest.length := by omega
      rw [harith]
      cases hd : decodeRecord i x with
      | error e =>
          simp [except_bindM_error, except_bind_error]
      | ok m =>
          simp only [except_bindM_ok, List.append_eq]
          rw [ih (i + 1)]
          cases hrest : decodeRecords (i + 1) rest <;>
            cases hys : decodeRecords (i + 1 + rest.length) ys <;>
            simp [except_bind_ok, except_bind_error, except_bindM_ok, except_bindM_error,
              except_fmap_ok, except_fmap_error, except_map_ok, except_map_error]

/-- C9: a wire sequence containing a record with a missing or unrecognized
role discriminator never deserializes: the whole decode returns an error
(no partial prefix is accepted), and when the records before the offending
one decode cleanly the error text contains "unknown role". -/
theorem c9_unknown_role_rejects_sequence :
    (∀ items : List Json, (∃ j ∈ items, roleUnrecognized j = true) →
        ∃ e, decodeMessages (.arr items) = .error e)
    ∧ (∀ (pre : List Json) (bad : Json) (post : List Json) (ms : List Msg),
        decodeRecords 0 pre = .ok ms → roleUnrecognized bad = true →
        ∃ e, decodeMessages (.arr (pre ++ bad :: post)) = .error e
          ∧ containsSubstr e "unknown role") := by
  constructor
  · intro items hbad
    obtain ⟨e, he⟩ := decodeRecords_error_of_bad items 0 hbad
    exact ⟨e, by simp [decodeMessages, he]⟩
  · intro pre bad post ms hpre hbad
    obtain ⟨r, hr⟩ := decodeRecord_unknown_role pre.length bad hbad
    refine ⟨"message[" ++ toString pre.length ++ "]: unknown role \"" ++ r ++ "\"", ?_, ?_⟩
    · have hrec : decodeRecords pre.length (bad :: post)
          = .error ("message[" ++ toString pre.length ++ "]: unknown role \"" ++ r ++ "\"") := by
        simp [decodeRecords, hr, except_bindM_error]
      simp [decodeMessages, decodeRecords_append pre (bad :: post) 0, hpre, hrec,
        except_bind_ok, except_map_error]
    · refine ⟨"message[".data ++ (toString pre.length).data ++ "]: ".data,
        " \"".data ++ r.data ++ "\"".data, ?_⟩
      simp [String.data_append, List.append_assoc]

/-- Witness for C9: the sequence `[{role:"user",content:"hi"},
{role:"wizard"}]` is rejected with an "unknown role" error. -/
theorem c9_unknown_role_witness :
    (decodeRecords 0 [Json.obj [("role", Json.str "user"), ("content", Json.str "hi")]]
        = .ok [Msg.user "hi"])
    ∧ roleUnrecognized (Json.obj [("role", Json.str "wizard")]) = true
    ∧ (∃ e, decodeMessages (.arr ([Json.obj [("role", Json.str "user"), ("content", Json.str "hi")]]
          ++ Json.obj [("role", Json.str "wizard")] :: [])) = .error e
        ∧ containsSubstr e "unknown role") :=
  ⟨by rfl, by rfl,
   c9_unknown_role_rejects_sequence.2
     [Json.obj [("role", Json.str "user"), ("content", Json.str "hi")]]
     (Json.obj [("role", Json.str "wizard")]) [] [Msg.user "hi"] (by rfl) (by rfl)⟩

end LlmRepo

namespace LlmRepo

/-! ## Adapter frames used by the fixtures -/

/-- A tool-call-start frame: index, id and name, no argument text. -/
def startFrame (idx : Int) (id nm : String) : RawLine :=
  .chunk ⟨[⟨"", "", [⟨idx, id, nm, ""⟩], none⟩], none, none⟩

/-- A tool-call argument-fragment frame for `idx`. -/
def fragFrame (idx : Int) (arg : String) : RawLine :=
  .chunk ⟨[⟨"", "", [⟨idx, "", "", arg⟩], none⟩], none, none⟩

/-- A turn-finish frame (`finish_reason = "tool_calls"`). -/
def finishFrame : RawLine := .chunk ⟨[⟨"", "", [], some "tool_calls"⟩], none, none⟩

/-- A text-delta frame. -/
def deltaFrame (text : String) : RawLine := .chunk ⟨[⟨text, "", [], none⟩], none, none⟩

def notDoneMark : RawLine → Bool
  | .doneMark => false
  | _ => true

def chunkErrorFree : RawLine → Bool
  | .chunk c => c.errorMsg.isNone
  | _ => true

/-- Concatenation of argument fragments in arrival order. -/
def concatStrings : List String → String
  | [] => ""
  | s :: rest => s ++ concatStrings rest

/-! ## Loop-unfolding and `emitToolCalls` lemmas -/

theorem openaiLoop_cons_next (cancelAt : Option Nat) (scanErr : Option String)
    (i : Nat) (st : OaiState) (line : RawLine) (rest : List RawLine)
    (evs : List Event) (st' : OaiState)
    (hcancel : canceledAt cancelAt i = false)
    (hstep : openaiStep st line = .next evs st') :
    openaiLoop cancelAt scanErr i st (line :: rest)
      = evs ++ openaiLoop cancelAt scanErr (i + 1) st' rest := by
  simp [openaiLoop, hcancel, hstep]

theorem openaiLoop_cons_halt (cancelAt : Option Nat) (scanErr : Option String)
    (i : Nat) (st : OaiState) (line : RawLine) (rest : List RawLine)
    (evs : List Event)
    (hcancel : canceledAt cancelAt i = false)
    (hstep : openaiStep st line = .halt evs) :
    openaiLoop cancelAt scanErr i st (line :: rest) = evs := by
  simp [openaiLoop, hcancel, hstep]

theorem openrouterLoop_cons_next (cancelAt : Option Nat)
    (i : Nat) (st : OrState) (line : RawLine) (rest : List RawLine)
    (evs : List Event) (st' : OrState)
    (hcancel : canceledAt cancelAt i = false)
    (hstep : openrouterStep st line = .next evs st') :
    openrouterLoop cancelAt i st (line :: rest)
      = evs ++ openrouterLoop cancelAt (i + 1) st' rest := by
  simp [openrouterLoop, hcancel, hstep]

theorem openrouterLoop_cons_halt (cancelAt : Option Nat)
    (i : Nat) (st : OrState) (line : RawLine) (rest : List RawLine)
    (evs : List Event)
    (hcancel : canceledAt cancelAt i = false)
    (hstep : openrouterStep st line = .halt evs) :
    openrouterLoop cancelAt i st (line :: rest) = evs := by
  simp [openrouterLoop, hcancel, hstep]

theorem emitLoopOpenrouter_spec :
    ∀ (pending tbl : List (Int × ToolAccum)),
      (emitLoopOpenrouter pending tbl).1 = pending.map (fun p => p.2.finalize)
      ∧ (emitLoopOpenrouter pending tbl).2
          = pending.foldl (fun t p => eraseKeyInt t p.1) tbl := by
  intro pending
  induction pending with
  | nil => intro tbl; exact ⟨rfl, rfl⟩
  | cons p rest ih =>
      intro tbl
      rcases p with ⟨k, a⟩
      simp [emitLoopOpenrouter, (ih (eraseKeyInt tbl k)).1, (ih (eraseKeyInt tbl k)).2]

theorem eraseKeyInt_cons_self (k : Int) (a : ToolAccum) (rest : List (Int × ToolAccum)) :
    eraseKeyInt ((k, a) :: rest) k = rest := by
  simp [eraseKeyInt]

theorem foldl_erase_self :
    ∀ tbl : List (Int × ToolAccum),
      List.foldl (fun t p => eraseKeyInt t p.1) tbl tbl = [] := by
  intro tbl
  induction tbl with
  | nil => rfl
  | cons p rest ih =>
      rcases p with ⟨k, a⟩
      simp only [List.foldl_cons, eraseKeyInt_cons_self]
      exact ih

theorem mem_emitOpenai_nonterminal (tbl : List (Int × ToolAccum)) :
    ∀ e ∈ emitToolCallsOpenai tbl, e.isTerminal = false := by
  intro e he
  obtain ⟨p, _, rfl⟩ := List.mem_map.1 he
  rfl

theorem mem_emitOpenrouter_nonterminal (tbl : List (Int × ToolAccum)) :
    ∀ e ∈ (emitToolCallsOpenrouter tbl).1, e.isTerminal = false := by
  intro e he
  rw [emitToolCallsOpenrouter, (emitLoopOpenrouter_spec tbl tbl).1] at he
  obtain ⟨p, _, rfl⟩ := List.mem_map.1 he
  rfl

theorem mem_textEvents_nonterminal (choice : ChunkChoice) :
    ∀ e ∈ ((if choice.reasoningContent = "" then []
             else [Event.reasoning choice.reasoningContent])
        ++ (if choice.content = "" then [] else [Event.delta choice.content])),
      e.isTerminal = false := by
  intro e he
  rcases List.mem_append.1 he with h | h
  · by_cases hr : choice.reasoningContent = ""
    · simp [hr] at h
    · simp only [hr, if_false, List.mem_singleton] at h
      subst h; rfl
  · by_cases hc : choice.content = ""
    · simp [hc] at h
    · simp only [hc, if_false, List.mem_singleton] at h
      subst h; rfl

/-- The openai loop body only returns (halts) on the `[DONE]` marker, with
a single terminal event. -/
theorem openaiStep_halt_terminal (st : OaiState) (line : RawLine) (evs : List Event)
    (h : openaiStep st line = .halt evs) :
    line = .doneMark ∧ ∃ t, evs = [t] ∧ t.isTerminal = true := by
  cases line with
  | other => cases h
  | badJson => cases h
  | doneMark =>
      refine ⟨rfl, .done st.finalUsage, ?_, rfl⟩
      injection h with h1
      exact h1.symm
  | chunk c =>
      simp only [openaiStep] at h
      split at h
      · cases h
      · cases h

theorem mem_oaiChoiceEvents_nonterminal (choice : ChunkChoice)
    (tbl : List (Int × ToolAccum)) :
    ∀ e ∈ ((if choice.content = "" then [] else [Event.delta choice.content])
        ++ (match choice.finishReason with
            | some r => if r = "tool_calls" then emitToolCallsOpenai tbl else []
            | none => [])), e.isTerminal = false := by
  intro e he
  rcases List.mem_append.1 he with hd | ht
  · by_cases hc : choice.content = ""
    · simp [hc] at hd
    · simp only [hc, if_false, List.mem_singleton] at hd
      subst hd; rfl
  · cases hf : choice.finishReason with
    | none => rw [hf] at ht; simp at ht
    | some r =>
        rw [hf] at ht
        by_cases hr : r = "tool_calls"
        · simp only [hr, if_true] at ht
          exact mem_emitOpenai_nonterminal _ e ht
        · simp [hr] at ht

/-- Events sent by a non-returning openai loop iteration are never
terminal. -/
theorem openaiStep_next_nonterminal (st : OaiState) (line : RawLine)
    (evs : List Event) (st' : OaiState)
    (h : openaiStep st line = .next evs st') :
    ∀ e ∈ evs, e.isTerminal = false := by
  cases line with
  | other => injection h with h1 _; subst h1; simp
  | badJson => injection h with h1 _; subst h1; simp
  | doneMark => cases h
  | chunk c =>
      simp only [openaiStep] at h
      split at h
      · injection h with h1 _; subst h1; simp
      · injection h with h1 _
        subst h1
        exact mem_oaiChoiceEvents_nonterminal _ _

/-- The openrouter loop body returns (halts) only on `[DONE]` or an
in-band error chunk, always with a single terminal event. -/
theorem openrouterStep_halt_terminal (st : OrState) (line : RawLine) (evs : List Event)
    (h : openrouterStep st line = .halt evs) :
    ∃ t, evs = [t] ∧ t.isTerminal = true := by
  cases line with
  | other => cases h
  | badJson => cases h
  | doneMark =>
      refine ⟨.done st.usage, ?_, rfl⟩
      injection h with h1
      exact h1.symm
  | chunk c =>
      simp only [openrouterStep] at h
      split at h
      · injection h with h1
        exact ⟨_, h1.symm, rfl⟩
      · split at h
        · cases h
        · split at h
          · split at h
            · cases h
            · cases h
          · cases h

/-- Events sent by a non-returning openrouter loop iteration are never
terminal. -/
theorem openrouterStep_next_nonterminal (st : OrState) (line : RawLine)
    (evs : List Event) (st' : OrState)
    (h : openrouterStep st line = .next evs st') :
    ∀ e ∈ evs, e.isTerminal = false := by
  cases line with
  | other => injection h with h1 _; subst h1; simp
  | badJson => injection h with h1 _; subst h1; simp
  | doneMark => cases h
  | chunk c =>
      simp only [openrouterStep] at h
      split at h
      · cases h
      · split at h
        · injection h with h1 _; subst h1; simp
        · split at h
          · split at h
            · injection h with h1 _
              subst h1
              intro e he
              rcases List.mem_append.1 he with hx | hx
              · exact mem_textEvents_nonterminal _ e hx
              · exact mem_emitOpenrouter_nonterminal _ e hx
            · injection h with h1 _
              subst h1
              exact mem_textEvents_nonterminal _
          · injection h with h1 _
            subst h1
            exact mem_textEvents_nonterminal _

end LlmRepo

namespace LlmRepo

/-- Every openrouter stream ends in exactly one terminal event: whatever
the cancellation point and delivered lines, the event list is
non-terminal events followed by one `Done` or `Error`. -/
theorem openrouter_terminal_aux :
    ∀ (lines : List RawLine) (cancelAt : Option Nat) (i : Nat) (st : OrState),
      ∃ evs t, openrouterLoop cancelAt i st lines = evs ++ [t]
        ∧ t.isTerminal = true ∧ ∀ e ∈ evs, e.isTerminal = false := by
  intro lines
  induction lines with
  | nil =>
      intro cancelAt i st
      exact ⟨(emitToolCallsOpenrouter st.activeTools).1, .done st.usage, rfl, rfl,
        mem_emitOpenrouter_nonterminal st.activeTools⟩
  | cons line rest ih =>
      intro cancelAt i st
      cases hcancel : canceledAt cancelAt i with
      | true =>
          refine ⟨[], .error .canceled, ?_, rfl, by simp⟩
          simp [openrouterLoop, hcancel]
      | false =>
          cases hstep : openrouterStep st line with
          | next evs st' =>
              obtain ⟨evs', t, heq, hterm, hnon⟩ := ih cancelAt (i + 1) st'
              refine ⟨evs ++ evs', t, ?_, hterm, ?_⟩
              · rw [openrouterLoop_cons_next cancelAt i st line rest evs st' hcancel hstep,
                  heq, List.append_assoc]
              · intro e he
                rcases List.mem_append.1 he with hx | hx
                · exact openrouterStep_next_nonterminal st line evs st' hstep e hx
                · exact hnon e hx
          | halt evs =>
              obtain ⟨t, rfl, hterm⟩ := openrouterStep_halt_terminal st line evs hstep
              refine ⟨[], t, ?_, hterm, by simp⟩
              simpa using openrouterLoop_cons_halt cancelAt i st line rest [t] hcancel hstep

/-- An openai stream emits at most one terminal event, always last — but
may emit none (the clean end-of-stream path emits nothing). -/
theorem openai_terminal_aux :
    ∀ (lines : List RawLine) (cancelAt : Option Nat) (scanErr : Option String)
      (i : Nat) (st : OaiState),
      (∃ evs t, openaiLoop cancelAt scanErr i st lines = evs ++ [t]
         ∧ t.isTerminal = true ∧ ∀ e ∈ evs, e.isTerminal = false)
      ∨ (∀ e ∈ openaiLoop cancelAt scanErr i st lines, e.isTerminal = false) := by
  intro lines
  induction lines with
  | nil =>
      intro cancelAt scanErr i st
      cases scanErr with
      | some m =>
          left
          exact ⟨[], .error (.scanError ("stream scan error: " ++ m)), rfl, rfl, by simp⟩
      | none =>
          right
          intro e he
          simp [openaiLoop] at he
  | cons line rest ih =>
      intro cancelAt scanErr i st
      cases hcancel : canceledAt cancelAt i with
      | true =>
          left
          refine ⟨[], .error .canceled, ?_, rfl, by simp⟩
          simp [openaiLoop, hcancel]
      | false =>
          cases hstep : openaiStep st line with
          | next evs st' =>
              have hloop := openaiLoop_cons_next cancelAt scanErr i st line rest evs st'
                hcancel hstep
              rcases ih cancelAt scanErr (i + 1) st' with ⟨evs', t, heq, hterm, hnon⟩ | hall
              · left
                refine ⟨evs ++ evs', t, ?_, hterm, ?_⟩
                · rw [hloop, heq, List.append_assoc]
                · intro e he
                  rcases List.mem_append.1 he with hx | hx
                  · exact openaiStep_next_nonterminal st line evs st' hstep e hx
                  · exact hnon e hx
              · right
                intro e he
                rw [hloop] at he
                rcases List.mem_append.1 he with hx | hx
                · exact openaiStep_next_nonterminal st line evs st' hstep e hx
                · exact hall e hx
          | halt evs =>
              obtain ⟨-, t, rfl, hterm⟩ := openaiStep_halt_terminal st line evs hstep
              left
              refine ⟨[], t, ?_, hterm, by simp⟩
              simpa using openaiLoop_cons_halt cancelAt scanErr i st line rest [t]
                hcancel hstep

/-- C2 counterexample: the openai adapter's stream for a transport that
delivers one text delta and then ends (EOF without a `[DONE]` marker and
without a scanner error) closes the event channel after a single `Delta`
and no terminal event at all — the claimed "exactly one terminal event
(Done or Error) per stream, including transport end-of-stream" is false
for this adapter. -/
theorem c2_no_terminal_counterexample :
    openaiParseStream none [deltaFrame "Hello"] none = [Event.delta "Hello"]
    ∧ (openaiParseStream none [deltaFrame "Hello"] none).filter
        (fun e => e.isTerminal) = [] := by
  exact ⟨rfl, rfl⟩

/-- C2 (amended): the openrouter adapter emits exactly one terminal event
per stream, always last, on every exit path (cancellation, in-band error,
`[DONE]`, and end-of-stream); the openai adapter emits at most one
terminal event, always last when present, but none on a clean
end-of-stream without `[DONE]`, scanner error, or cancellation. -/
theorem c2_terminal_event_amended :
    (∀ (cancelAt : Option Nat) (lines : List RawLine),
        ∃ evs t, openrouterParseStream cancelAt lines = evs ++ [t]
          ∧ t.isTerminal = true ∧ ∀ e ∈ evs, e.isTerminal = false)
    ∧ (∀ (cancelAt : Option Nat) (lines : List RawLine) (scanErr : Option String),
        (∃ evs t, openaiParseStream cancelAt lines scanErr = evs ++ [t]
           ∧ t.isTerminal = true ∧ ∀ e ∈ evs, e.isTerminal = false)
        ∨ (∀ e ∈ openaiParseStream cancelAt lines scanErr, e.isTerminal = false)) :=
  ⟨fun cancelAt lines => openrouter_terminal_aux lines cancelAt 0 ⟨[], none⟩,
   fun cancelAt lines scanErr => openai_terminal_aux lines cancelAt scanErr 0 ⟨[], none⟩⟩

/-- C3 counterexample: the openai adapter does not remove accumulator
entries after finalizing them (`emitToolCalls` has no `delete`), so a
second finalize signal in the same stream re-emits the previously
finalized entry: the stream start(0), finish, finish, `[DONE]` emits the
same `ToolCall` twice, where the claim requires it to be emitted exactly
once and then discarded. -/
theorem c3_reemission_counterexample :
    openaiParseStream none
      [startFrame 0 "call_1" "get_weather", finishFrame, finishFrame, RawLine.doneMark]
      none
    = [Event.toolCall "call_1" "get_weather" none,
       Event.toolCall "call_1" "get_weather" none, Event.done none] := rfl

/-- C3 (amended): the openrouter adapter's `emitToolCalls` emits exactly
one `ToolCall` per still-open accumulator entry and deletes every entry,
so the table is empty afterwards and a second finalize signal emits
nothing — its start/finish/finish/`[DONE]` stream carries the tool call
once; the openai adapter emits each still-open entry but leaves the table
unchanged, so a second finalize re-emits it (see the counterexample). -/
theorem c3_finalize_discard_amended :
    (∀ tbl : List (Int × ToolAccum),
        emitToolCallsOpenrouter tbl = (tbl.map (fun p => p.2.finalize), []))
    ∧ (∀ tbl : List (Int × ToolAccum),
        emitToolCallsOpenrouter (emitToolCallsOpenrouter tbl).2 = ([], []))
    ∧ openrouterParseStream none
        [startFrame 0 "call_1" "get_weather", finishFrame, finishFrame, RawLine.doneMark]
      = [Event.toolCall "call_1" "get_weather" none, Event.done none] := by
  have hsnd : ∀ tbl : List (Int × ToolAccum), (emitToolCallsOpenrouter tbl).2 = [] := by
    intro tbl
    have h2 := (emitLoopOpenrouter_spec tbl tbl).2
    rw [foldl_erase_self tbl] at h2
    exact h2
  refine ⟨?_, ?_, by rfl⟩
  · intro tbl
    exact Prod.ext (emitLoopOpenrouter_spec tbl tbl).1 (hsnd tbl)
  · intro tbl
    rw [hsnd tbl]
    rfl

end LlmRepo

namespace LlmRepo

theorem applyDelta_start (idx : Int) (id nm : String) :
    ToolAccum.applyDelta ⟨"", "", ""⟩ ⟨idx, id, nm, ""⟩ = ⟨id, nm, ""⟩ := by
  by_cases hid : id = "" <;> by_cases hnm : nm = "" <;>
    simp [ToolAccum.applyDelta, hid, hnm]

theorem openaiStep_start (u : Option Usage) (idx : Int) (id nm : String) :
    openaiStep ⟨[], u⟩ (startFrame idx id nm)
      = .next [] ⟨[(idx, ⟨id, nm, ""⟩)], u⟩ := by
  simp [openaiStep, startFrame, accumulate, updateTable, applyDelta_start]

theorem openaiStep_frag (u : Option Usage) (idx : Int) (arg : String) (a : ToolAccum) :
    openaiStep ⟨[(idx, a)], u⟩ (fragFrame idx arg)
      = .next [] ⟨[(idx, ⟨a.id, a.name, a.argsBuf ++ arg⟩)], u⟩ := by
  obtain ⟨aid, anm, abuf⟩ := a
  by_cases h : arg = "" <;>
    simp [openaiStep, fragFrame, accumulate, updateTable, ToolAccum.applyDelta, h,
      String.append_empty]

theorem openaiStep_finish (st : OaiState) :
    openaiStep st finishFrame = .next (emitToolCallsOpenai st.activeTools) st := by
  obtain ⟨tbl, u⟩ := st
  simp [openaiStep, finishFrame, accumulate]

theorem openaiStep_doneMark (st : OaiState) :
    openaiStep st .doneMark = .halt [.done st.finalUsage] := rfl

/-- Processing a run of argument-fragment frames for one index sends no
events and appends each fragment verbatim, in order, to that index's
buffer. -/
theorem openai_frag_run (idx : Int) (frags : List String) :
    ∀ (i : Nat) (a : ToolAccum) (u : Option Usage) (rest : List RawLine)
      (scanErr : Option String),
      openaiLoop none scanErr i ⟨[(idx, a)], u⟩ (frags.map (fragFrame idx) ++ rest)
        = openaiLoop none scanErr (i + frags.length)
            ⟨[(idx, ⟨a.id, a.name, a.argsBuf ++ concatStrings frags⟩)], u⟩ rest := by
  induction frags with
  | nil =>
      intro i a u rest scanErr
      simp [concatStrings, String.append_empty]
  | cons f fs ih =>
      intro i a u rest scanErr
      rw [List.map_cons, List.cons_append,
        openaiLoop_cons_next none scanErr i ⟨[(idx, a)], u⟩ (fragFrame idx f)
          (fs.map (fragFrame idx) ++ rest) [] ⟨[(idx, ⟨a.id, a.name, a.argsBuf ++ f⟩)], u⟩
          rfl (openaiStep_frag u idx f a),
        List.nil_append,
        ih (i + 1) ⟨a.id, a.name, a.argsBuf ++ f⟩ u rest scanErr]
      have h1 : i + 1 + fs.length = i + (fs.length + 1) := by omega
      simp only [concatStrings, List.length_cons, String.append_assoc, h1]

/-- C1: for any index, id, name and fragment list, the openai adapter run
on start(idx), the fragments, a `finish_reason = "tool_calls"` frame and
`[DONE]` emits exactly one `ToolCall` whose arguments are the
concatenated fragment text parsed as one JSON value (`none` when the
buffer is malformed or not an object), followed by the terminal `Done` —
and nothing at all before the finish frame.  The concrete fixture
start(0), `{"location"` then `:"Paris"}` (the repository test's
fragments; the concatenated buffer is `{"location":"Paris"}`), finish,
`[DONE]` yields exactly one `ToolCall` with arguments
`{"location": "Paris"}`, and a malformed buffer yields null arguments
without aborting the stream. -/
theorem c1_fragment_reassembly :
    (∀ (idx : Int) (id nm : String) (frags : List String),
        openaiParseStream none
          (startFrame idx id nm :: (frags.map (fragFrame idx) ++ [finishFrame, RawLine.doneMark]))
          none
          = [Event.toolCall id nm (argsOfBuf (concatStrings frags)), Event.done none]
        ∧ openaiParseStream none (startFrame idx id nm :: frags.map (fragFrame idx)) none = [])
    ∧ openaiParseStream none
        [startFrame 0 "call_123" "get_weather", fragFrame 0 "\x7b\"location\"",
         fragFrame 0 ":\"Paris\"\x7d", finishFrame, RawLine.doneMark] none
        = [Event.toolCall "call_123" "get_weather" (some [("location", Json.str "Paris")]),
           Event.done none]
    ∧ openaiParseStream none
        [startFrame 0 "call_9" "broken", fragFrame 0 "\x7b\"oops\"", finishFrame,
         RawLine.doneMark] none
        = [Event.toolCall "call_9" "broken" none, Event.done none] := by
  refine ⟨?_, by rfl, by rfl⟩
  intro idx id nm frags
  constructor
  · rw [openaiParseStream,
      openaiLoop_cons_next none none 0 ⟨[], none⟩ (startFrame idx id nm)
        (frags.map (fragFrame idx) ++ [finishFrame, RawLine.doneMark]) []
        ⟨[(idx, ⟨id, nm, ""⟩)], none⟩ rfl (openaiStep_start none idx id nm),
      List.nil_append,
      openai_frag_run idx frags 1 ⟨id, nm, ""⟩ none [finishFrame, RawLine.doneMark] none,
      openaiLoop_cons_next none none (1 + frags.length)
        ⟨[(idx, ⟨id, nm, "" ++ concatStrings frags⟩)], none⟩ finishFrame [RawLine.doneMark]
        (emitToolCallsOpenai [(idx, ⟨id, nm, "" ++ concatStrings frags⟩)])
        ⟨[(idx, ⟨id, nm, "" ++ concatStrings frags⟩)], none⟩ rfl
        (openaiStep_finish ⟨[(idx, ⟨id, nm, "" ++ concatStrings frags⟩)], none⟩),
      openaiLoop_cons_halt none none (1 + frags.length + 1)
        ⟨[(idx, ⟨id, nm, "" ++ concatStrings frags⟩)], none⟩ RawLine.doneMark []
        [Event.done none] rfl
        (openaiStep_doneMark ⟨[(idx, ⟨id, nm, "" ++ concatStrings frags⟩)], none⟩)]
    simp [emitToolCallsOpenai, ToolAccum.finalize, String.empty_append]
  · rw [openaiParseStream,
      openaiLoop_cons_next none none 0 ⟨[], none⟩ (startFrame idx id nm)
        (frags.map (fragFrame idx)) [] ⟨[(idx, ⟨id, nm, ""⟩)], none⟩ rfl
        (openaiStep_start none idx id nm),
      List.nil_append,
      show frags.map (fragFrame idx) = frags.map (fragFrame idx) ++ [] from
        (List.append_nil _).symm,
      openai_frag_run idx frags 1 ⟨id, nm, ""⟩ none [] none]
    rfl

end LlmRepo

namespace LlmRepo

theorem openaiStep_not_halt (st : OaiState) (line : RawLine)
    (h : notDoneMark line = true) :
    ∃ evs st', openaiStep st line = .next evs st' := by
  cases hstep : openaiStep st line with
  | next evs st' => exact ⟨evs, st', rfl⟩
  | halt evs =>
      obtain ⟨hline, -⟩ := openaiStep_halt_terminal st line evs hstep
      subst hline
      simp [notDoneMark] at h

/-- The openrouter loop body returns only on `[DONE]` or an in-band error
chunk. -/
theorem openrouterStep_halt_shape (st : OrState) (line : RawLine) (evs : List Event)
    (h : openrouterStep st line = .halt evs) :
    line = .doneMark ∨ ∃ c m, line = .chunk c ∧ c.errorMsg = some m := by
  cases line with
  | other => cases h
  | badJson => cases h
  | doneMark => exact Or.inl rfl
  | chunk c =>
      right
      cases herr : c.errorMsg with
      | some m => exact ⟨c, m, rfl, herr⟩
      | none =>
          exfalso
          simp only [openrouterStep, herr] at h
          cases hch : c.choices with
          | nil => simp only [hch] at h; cases h
          | cons choice more =>
              simp only [hch] at h
              cases hf : choice.finishReason with
              | none => simp only [hf] at h; cases h
              | some r =>
                  simp only [hf] at h
                  by_cases hr : r = "tool_calls" ∨ r = "stop"
                  · rw [if_pos hr] at h; cases h
                  · rw [if_neg hr] at h; cases h

theorem openrouterStep_not_halt (st : OrState) (line : RawLine)
    (h1 : notDoneMark line = true) (h2 : chunkErrorFree line = true) :
    ∃ evs st', openrouterStep st line = .next evs st' := by
  cases hstep : openrouterStep st line with
  | next evs st' => exact ⟨evs, st', rfl⟩
  | halt evs =>
      rcases openrouterStep_halt_shape st line evs hstep with h | ⟨c, m, rfl, herr⟩
      · subst h; simp [notDoneMark] at h1
      · simp [chunkErrorFree, herr] at h2

theorem openai_prefix_nonterminal :
    ∀ (pre : List RawLine) (i : Nat) (st : OaiState),
      (∀ x ∈ pre, notDoneMark x = true) →
      ∀ e ∈ openaiLoop none none i st pre, e.isTerminal = false := by
  intro pre
  induction pre with
  | nil =>
      intro i st _ e he
      simp [openaiLoop] at he
  | cons p rest ih =>
      intro i st h e he
      obtain ⟨evs, st', hstep⟩ := openaiStep_not_halt st p (h p (by simp))
      rw [openaiLoop_cons_next none none i st p rest evs st' rfl hstep] at he
      rcases List.mem_append.1 he with hx | hx
      · exact openaiStep_next_nonterminal st p evs st' hstep e hx
      · exact ih (i + 1) st' (fun x hx2 => h x (by simp [hx2])) e hx

/-- Canceling the context between the `pre` frames and the rest of the
openai stream: the adapter emits exactly the events of `pre`, then a
single terminal `Error` carrying the cancellation cause, and never reads
the remaining frames (the result does not depend on them or on the
scanner outcome). -/
theorem openai_cancel_aux :
    ∀ (pre : List RawLine) (i : Nat) (st : OaiState) (l : RawLine)
      (post : List RawLine) (scanErr : Option String),
      (∀ x ∈ pre, notDoneMark x = true) →
      openaiLoop (some (i + pre.length)) scanErr i st (pre ++ l :: post)
        = openaiLoop none none i st pre ++ [Event.error .canceled] := by
  intro pre
  induction pre with
  | nil =>
      intro i st l post scanErr _
      simp [openaiLoop, canceledAt]
  | cons p rest ih =>
      intro i st l post scanErr h
      obtain ⟨evs, st', hstep⟩ := openaiStep_not_halt st p (h p (by simp))
      have hcancelL : canceledAt (some (i + (p :: rest).length)) i = false := by
        simp only [canceledAt, List.length_cons]
        simp only [decide_eq_false_iff_not]
        omega
      rw [List.cons_append,
        openaiLoop_cons_next (some (i + (p :: rest).length)) scanErr i st p
          (rest ++ l :: post) evs st' hcancelL hstep,
        openaiLoop_cons_next none none i st p rest evs st' rfl hstep]
      have harith : i + (p :: rest).length = (i + 1) + rest.length := by
        simp only [List.length_cons]
        omega
      rw [harith, ih (i + 1) st' l post scanErr (fun x hx => h x (by simp [hx])),
        List.append_assoc]

theorem openrouter_cancel_aux :
    ∀ (pre : List RawLine) (i : Nat) (st : OrState),
      (∀ x ∈ pre, notDoneMark x = true) → (∀ x ∈ pre, chunkErrorFree x = true) →
      ∃ evs, (∀ e ∈ evs, e.isTerminal = false)
        ∧ ∀ (l : RawLine) (post : List RawLine),
            openrouterLoop (some (i + pre.length)) i st (pre ++ l :: post)
              = evs ++ [Event.error .canceled] := by
  intro pre
  induction pre with
  | nil =>
      intro i st _ _
      refine ⟨[], by simp, fun l post => ?_⟩
      simp [openrouterLoop, canceledAt]
  | cons p rest ih =>
      intro i st h1 h2
      obtain ⟨evs, st', hstep⟩ :=
        openrouterStep_not_halt st p (h1 p (by simp)) (h2 p (by simp))
      obtain ⟨evs', hnon', heq'⟩ :=
        ih (i + 1) st' (fun x hx => h1 x (by simp [hx])) (fun x hx => h2 x (by simp [hx]))
      refine ⟨evs ++ evs', ?_, ?_⟩
      · intro e he
        rcases List.mem_append.1 he with hx | hx
        · exact openrouterStep_next_nonterminal st p evs st' hstep e hx
        · exact hnon' e hx
      · intro l post
        have hcancelL : canceledAt (some (i + (p :: rest).length)) i = false := by
          simp only [canceledAt, List.length_cons]
          simp only [decide_eq_false_iff_not]
          omega
        rw [List.cons_append,
          openrouterLoop_cons_next (some (i + (p :: rest).length)) i st p
            (rest ++ l :: post) evs st' hcancelL hstep]
        have harith : i + (p :: rest).length = (i + 1) + rest.length := by
          simp only [List.length_cons]
          omega
        rw [harith, heq' l post, List.append_assoc]

/-- C4: cancellation is checked once per raw-frame iteration before the
frame is processed.  For both adapters, if the context is canceled after
the `pre` frames (none of which is the `[DONE]` return, nor — for
openrouter — an in-band error chunk), the stream is exactly the
(non-terminal) events of `pre` followed by one terminal `Error` carrying
the cancellation cause; nothing follows it and the frames after the
cancellation point are never consumed (the output is independent of
them). -/
theorem c4_cancellation_check :
    (∀ (pre : List RawLine) (l : RawLine) (post : List RawLine)
        (scanErr : Option String),
        (∀ x ∈ pre, notDoneMark x = true) →
        openaiParseStream (some pre.length) (pre ++ l :: post) scanErr
          = openaiParseStream none pre none ++ [Event.error ErrCause.canceled]
        ∧ ∀ e ∈ openaiParseStream none pre none, e.isTerminal = false)
    ∧ (∀ pre : List RawLine,
        (∀ x ∈ pre, notDoneMark x = true) → (∀ x ∈ pre, chunkErrorFree x = true) →
        ∃ evs, (∀ e ∈ evs, e.isTerminal = false)
          ∧ ∀ (l : RawLine) (post : List RawLine),
              openrouterParseStream (some pre.length) (pre ++ l :: post)
                = evs ++ [Event.error ErrCause.canceled]) := by
  constructor
  · intro pre l post scanErr h
    refine ⟨?_, openai_prefix_nonterminal pre 0 ⟨[], none⟩ h⟩
    have := openai_cancel_aux pre 0 ⟨[], none⟩ l post scanErr h
    simpa [openaiParseStream] using this
  · intro pre h1 h2
    obtain ⟨evs, hnon, heq⟩ := openrouter_cancel_aux pre 0 ⟨[], none⟩ h1 h2
    refine ⟨evs, hnon, fun l post => ?_⟩
    have := heq l post
    simpa [openrouterParseStream] using this

/-- Witness for C4: concrete cancellation after one delta frame. -/
theorem c4_cancellation_witness :
    (∀ x ∈ [deltaFrame "Hi"], notDoneMark x = true)
    ∧ (openaiParseStream (some [deltaFrame "Hi"].length)
          ([deltaFrame "Hi"] ++ RawLine.other :: []) none
        = openaiParseStream none [deltaFrame "Hi"] none ++ [Event.error ErrCause.canceled]
      ∧ ∀ e ∈ openaiParseStream none [deltaFrame "Hi"] none, e.isTerminal = false) :=
  ⟨by decide,
   c4_cancellation_check.1 [deltaFrame "Hi"] RawLine.other [] none (by decide)⟩

end LlmRepo
